import Mathlib

/-!
Verification of the dot-matrix plotting logic of `scanpy_scripts/lib/_plot.py`
(`dotplot2` and `plot_embedding`), shallowly embedded: python floats are
modelled as `ℚ`, numpy arrays as `List ℚ`, a pandas categorical series as an
explicit structure carrying both the category list and the per-row codes.

The first half of the file holds the definitions translated from the source;
the second half the lemmas and theorems about them.
-/

namespace ScanpyScripts

/-! ### Legend tick machinery (`dotplot2`, legend branch)

Source:
```
diff = dot_max - dot_min
if 0.2 < diff <= 0.6:   step = 0.1
elif 0.06 < diff <= 0.2: step = 0.05
elif 0.03 < diff <= 0.06: step = 0.02
elif diff <= 0.03:       step = 0.01
else:                    step = 0.2
fracs_legends = np.arange(dot_max, dot_min, step * -1)[::-1]
```
-/

/-- The tick-spacing lookup of `dotplot2`, translated clause for clause from
the `if/elif` chain on `diff = dot_max - dot_min`. -/
def legendStep (diff : ℚ) : ℚ :=
  if 0.2 < diff ∧ diff ≤ 0.6 then 0.1
  else if 0.06 < diff ∧ diff ≤ 0.2 then 0.05
  else if 0.03 < diff ∧ diff ≤ 0.06 then 0.02
  else if diff ≤ 0.03 then 0.01
  else 0.2

/-- `np.arange(start, stop, step)`: the values `start + i * step` for
`i < ⌈(stop - start) / step⌉` (numpy's documented length formula; empty when
the ceiling is not positive). -/
def npArange (start stop step : ℚ) : List ℚ :=
  (List.range (⌈(stop - start) / step⌉).toNat).map fun i => start + (Nat.cast i) * step

/-- `np.arange(dot_max, dot_min, step * -1)[::-1]` with `step` taken from
`legendStep`: the legend tick values of `dotplot2`, ascending. -/
def fracsLegends (dot_min dot_max : ℚ) : List ℚ :=
  (npArange dot_max dot_min (-legendStep (dot_max - dot_min))).reverse

/-! ### Fraction clipping, rescaling, dot size (`dotplot2` lines 240-249) -/

/-- `np.clip(x, lo, hi)` = `minimum(hi, maximum(lo, x))`. -/
def npClip (x lo hi : ℚ) : ℚ := min (max x lo) hi

/-- The fraction transform of `dotplot2`: when `(dot_min, dot_max) ≠ (0, 1)`
the fraction is clipped to `[dot_min, dot_max]` and rescaled by
`(frac - dot_min) / (dot_max - dot_min)`; otherwise it is left alone. -/
def rescaleFrac (dot_min dot_max f : ℚ) : ℚ :=
  if dot_min ≠ 0 ∨ dot_max ≠ 1 then
    (npClip f dot_min dot_max - dot_min) / (dot_max - dot_min)
  else f

/-- `dot_sizes = (frac * 10) ** 2`, per cell. -/
def dotSize (f : ℚ) : ℚ := (f * 10) ^ 2

/-! ### Dot bound validation (`dotplot2` lines 229-238) -/

/-- The `dot_min` check of `dotplot2`: default `0` when unset, and a range
check against `[0, 1]` when set (`dot_min < 0 or dot_min > 1` raises). -/
def checkDotMin (dot_min : Option ℚ) (dmax : ℚ) : Except String (ℚ × ℚ) :=
  match dot_min with
  | none => Except.ok (0, dmax)
  | some v =>
      if v < 0 ∨ 1 < v then Except.error "dot_min value has to be between 0 and 1"
      else Except.ok (v, dmax)

/-- The `dot_max` check of `dotplot2` followed by the `dot_min` check: when
`dot_max` is unset it is derived as `np.ceil(np.max(frac) * 10) / 10`; when set
it must lie in `[0, 1]`. Each bound is only checked individually; the two are
never compared to each other. -/
def checkDotBounds (dot_min dot_max : Option ℚ) (maxFrac : ℚ) :
    Except String (ℚ × ℚ) :=
  match dot_max with
  | none => checkDotMin dot_min (((⌈maxFrac * 10⌉ : ℤ) : ℚ) / 10)
  | some v =>
      if v < 0 ∨ 1 < v then Except.error "dot_max value has to be between 0 and 1"
      else checkDotMin dot_min v

/-! ### Legend labels (`dotplot2` lines 326-344) -/

/-- Python's percentage formatting of a fraction with no decimals. -/
def fmtPercent (x : ℚ) : String := toString (round (x * 100)) ++ "%"

/-- `labels[-1] = ">=" + labels[-1]`: `none` models the `IndexError` python
raises when `labels` is empty. -/
def setLastGE (labels : List String) : Option (List String) :=
  match labels.getLast? with
  | none => none
  | some l => some (labels.dropLast ++ [">=" ++ l])

/-- The `labels` local of `dotplot2`: percentage strings for every legend
tick, with the top label marked `>=` when `dot_max < 1`. -/
def legendLabels (dot_min dot_max : ℚ) : Option (List String) :=
  let ls := (fracsLegends dot_min dot_max).map fmtPercent
  if dot_max < 1 then setLastGE ls else some ls

/-- The tick labels actually passed to `set_xticklabels`/`set_yticklabels` in
the legend branch: the percentage strings are recomputed there from
`fracs_legends`, without the `>=` adjustment (the lines consuming `labels`
are commented out in the source). -/
def renderedLegendLabels (dot_min dot_max : ℚ) : List String :=
  (fracsLegends dot_min dot_max).map fmtPercent

/-! ### Layout and embedded mode (`dotplot2` lines 253-266 and 362-363) -/

/-- `legend_loc = 'none' if ax else legend_loc`. -/
def effectiveLegendLoc (hasAx : Bool) (legend_loc : String) : String :=
  if hasAx then "none" else legend_loc

/-- `fig_width = 0.5 + (n_key if swap_axis else n_group) * 0.25
+ 0.25 * int(legend_loc == 'right')`. -/
def figWidth (n_key n_group : ℕ) (swap_axis : Bool) (legend_loc : String) : ℚ :=
  0.5 + (if swap_axis then (n_key : ℚ) else (n_group : ℚ)) * 0.25 +
    0.25 * (if legend_loc = "right" then 1 else 0)

/-- `fig_height = 0.5 + (n_group if swap_axis else n_key) * 0.2
+ 0.25 * int(legend_loc == 'bottom')`. -/
def figHeight (n_key n_group : ℕ) (swap_axis : Bool) (legend_loc : String) : ℚ :=
  0.5 + (if swap_axis then (n_group : ℚ) else (n_key : ℚ)) * 0.2 +
    0.25 * (if legend_loc = "bottom" then 1 else 0)

/-- Whether `dotplot2` allocates a fresh figure: it does in the
`legend_loc == 'right'` and `legend_loc == 'bottom'` branches and in the
`elif not ax` branch; with an axis handle and no legend it reuses the handle. -/
def createsNewFigure (hasAx : Bool) (legend_loc : String) : Bool :=
  legend_loc == "right" || legend_loc == "bottom" || !hasAx

/-- The value `dotplot2` returns: the `(fig_width, fig_height)` pair when an
axis handle was supplied, otherwise (modelled as `none`) the main axis. -/
def dotplot2Return (hasAx : Bool) (w h : ℚ) : Option (ℚ × ℚ) :=
  if hasAx then some (w, h) else none

/-! ### Grid placement and the axis swap (`dotplot2` lines 271-286)

The fraction/mean matrices are flattened feature-major (`frac.T.flatten()`),
so the cell for (group `i`, feature `j`) has flat index `j * n_group + i`.
Without swap the code scatters
`x = np.tile(range(n_group), n_key)`, `y = np.repeat(np.arange(n_key), n_group)`;
with swap it scatters
`x = np.repeat(np.arange(n_key)[::-1], n_group)`, `y = np.tile(range(n_group), n_key)`
against the reversed size/color arrays, and reverses the y tick labels. -/

section GridDefs

variable {α : Type*}

/-- `np.tile(l, n)`: `n` concatenated copies of `l`. -/
def npTile (l : List α) : ℕ → List α
  | 0 => []
  | n + 1 => l ++ npTile l n

/-- `np.repeat(l, n)`: every element of `l` repeated `n` times in place. -/
def npRepeat (l : List α) (n : ℕ) : List α :=
  (l.map (List.replicate n)).flatten

/-- Scatter data of the unswapped branch: triples `(x, y, payload)` where
`x = np.tile(range(n_group), n_key)`, `y = np.repeat(np.arange(n_key), n_group)`
and the payload array (sizes, colors) is in feature-major flat order. -/
def scatterNoSwap (n_group n_key : ℕ) (attrs : List α) : List (ℕ × ℕ × α) :=
  (npTile (List.range n_group) n_key).zip
    ((npRepeat (List.range n_key) n_group).zip attrs)

/-- Scatter data of the `swap_axis=True` branch: triples `(x, y, payload)`
where `x = np.repeat(np.arange(n_key)[::-1], n_group)`,
`y = np.tile(range(n_group), n_key)` and the payload array is reversed
(`dot_sizes[::-1]`, `dot_colors[::-1]`). -/
def scatterSwap (n_group n_key : ℕ) (attrs : List α) : List (ℕ × ℕ × α) :=
  (npRepeat (List.range n_key).reverse n_group).zip
    ((npTile (List.range n_group) n_key).zip attrs.reverse)

/-- `set_yticklabels(group_label[::-1])` of the swapped branch. -/
def swapYTickLabels (group_label : List String) : List String :=
  group_label.reverse

end GridDefs

/-! ### Joint-fraction mode statistics (`dotplot2` lines 208-216)

A group is the list of its observations, each observation the pair of its two
feature values (`second_key_dependent_fraction` requires exactly two keys). -/

/-- The number of the two feature values of one observation that are positive
(`(g > 0).sum(axis=1)` for one row). -/
def posCount2 (p : ℚ × ℚ) : ℕ :=
  (if 0 < p.1 then 1 else 0) + (if 0 < p.2 then 1 else 0)

/-- `((g > 0).sum(axis=1) == 2).sum()`: the count of observations of the
group whose feature values are both positive. -/
def jointExpCnt (g : List (ℚ × ℚ)) : ℕ :=
  (g.filter fun p => posCount2 p == 2).length

/-- `((g > 0).sum(axis=1) == 2).mean()`: the joint fraction, the mean of the
0/1 indicator column. -/
def jointFrac (g : List (ℚ × ℚ)) : ℚ :=
  (g.map fun p => if posCount2 p == 2 then (1 : ℚ) else 0).sum / (g.length : ℚ)

/-- `avg0`: mean of the first key over the whole group
(`g[[keys[0]]].mean(axis=0)` — only `keys[0]` enters). -/
def meanAllFst (g : List (ℚ × ℚ)) : ℚ :=
  (g.map Prod.fst).sum / (g.length : ℚ)

/-- `avg1`: sum of the first key over the group divided by the count of its
positive entries, with `fillna(0)` — rational division by zero is `0`, which
matches the `fillna(0)` of the `0/0` case. Only `keys[0]` enters. -/
def meanExprFst (g : List (ℚ × ℚ)) : ℚ :=
  (g.map Prod.fst).sum / (((g.filter fun p => decide (0 < p.1)).length : ℕ) : ℚ)

/-- `avg = avg1 if mean_only_expressed else avg0` in joint mode. -/
def jointAvg (mean_only_expressed : Bool) (g : List (ℚ × ℚ)) : ℚ :=
  if mean_only_expressed then meanExprFst g else meanAllFst g

/-- A concrete joint-mode group: 10 observations, 4 of them with both
features positive. -/
def jointWitnessGroup : List (ℚ × ℚ) :=
  [(1, 1), (2, 3), (1, 2), (3, 3), (1, 0), (0, 1), (5, 0), (0, 2), (0, 0), (4, 0)]

/-! ### Group filtering by `min_group_size` (`dotplot2` lines 200-221)

A pandas categorical series is a fixed category list plus per-row codes.
`df.loc[...]` row filtering drops rows but never touches the dtype's
categories, and grouping by a categorical uses `observed=False`, keeping one
output row per category, observed or not. -/

structure CatSeries where
  categories : List String
  codes : List ℕ

/-- `group_size = df.groupby('group').agg('size')`: one entry per category in
category order (unobserved categories report 0). -/
def groupSizes (s : CatSeries) : List ℕ :=
  (List.range s.categories.length).map fun c =>
    (s.codes.filter fun g => g == c).length

/-- `df = df.loc[df['group'].isin(group_size.index[group_size.values >=
min_group_size]), :]`, guarded by `if min_group_size:` — rows of small groups
are dropped, the categorical dtype (hence its category list) is unchanged. -/
def filterMinGroupSize (min_group_size : ℕ) (s : CatSeries) : CatSeries :=
  if min_group_size ≠ 0 then
    { categories := s.categories
      codes := s.codes.filter fun g => min_group_size ≤ (groupSizes s).getD g 0 }
  else s

/-- `n_group = df['group'].cat.categories.size`, read after the filtering. -/
def nGroupAfterFilter (min_group_size : ℕ) (s : CatSeries) : ℕ :=
  (filterMinGroupSize min_group_size s).categories.length

/-- `group_label = frac.index.values`: the group axis of the statistics
matrix produced by `df.groupby('group')[keys].apply(...)` — indexed by every
category of the categorical grouper. -/
def statMatrixGroupLabels (min_group_size : ℕ) (s : CatSeries) : List String :=
  (filterMinGroupSize min_group_size s).categories

/-- The C2 scenario: 3 groups of sizes 50, 3 and 100. -/
def scenarioGroups : CatSeries :=
  { categories := ["g1", "g2", "g3"]
    codes := List.replicate 50 0 ++ List.replicate 3 1 ++ List.replicate 100 2 }

/-! ### Category rename and restore in `plot_embedding` (lines 528-580)

`plot_embedding` decorates every category label with its index and group
size for display, runs the scatter rendering inside `try:`, and renames the
categories back in the `finally:` block. -/

/-- `cat.rename_categories(mapping, inplace=True)` with a python dict
modelled as an association list: a category present as a key is replaced by
its value, any other category is kept. -/
def renameCategories (d : List (String × String)) (cats : List String) :
    List String :=
  cats.map fun c => ((d.lookup c).getD c)

/-- The decorated display label of category `c` at position `i`: its index,
name and group size, as built by `plot_embedding`'s f-string. -/
def decorateLabel (counts : List ℕ) (i : ℕ) (c : String) : String :=
  toString i ++ ": " ++ c ++ " (n=" ++ toString (counts.getD i 0) ++ ")"

/-- All decorated labels, in category order. -/
def decoratedLabels (counts : List ℕ) (cats : List String) : List String :=
  (cats.enum).map fun p => decorateLabel counts p.1 p.2

/-- `rename_dict`: original label to decorated label. -/
def renameDict (counts : List ℕ) (cats : List String) :
    List (String × String) :=
  cats.zip (decoratedLabels counts cats)

/-- `restore_dict`: decorated label back to original label. -/
def restoreDict (counts : List ℕ) (cats : List String) :
    List (String × String) :=
  (decoratedLabels counts cats).zip cats

/-- The category labels of `adata.obs[groupby]` threaded through
`plot_embedding`: rename when `annot` demands display decoration, run the
rendering stage (which may raise), rename back in the `finally:` block that
runs on both exit paths. Returns the rendering outcome and the final labels. -/
def plotEmbeddingRun (annot : Bool) (counts : List ℕ) (cats : List String)
    (renderOk : Bool) : Except String Unit × List String :=
  let renamed :=
    if annot then renameCategories (renameDict counts cats) cats else cats
  let outcome : Except String Unit :=
    if renderOk then Except.ok () else Except.error "scatter raised"
  let final :=
    if annot then renameCategories (restoreDict counts cats) renamed else renamed
  (outcome, final)

/-! ## Lemmas and theorems -/

lemma legendStep_pos (d : ℚ) : 0 < legendStep d := by
  rw [legendStep]
  split_ifs <;> norm_num

lemma npArange_length (start stop step : ℚ) :
    (npArange start stop step).length = (⌈(stop - start) / step⌉).toNat := by
  simp [npArange]

lemma npArange_nonempty (start stop step : ℚ) (hlt : stop < start) (hstep : step < 0) :
    0 < (npArange start stop step).length := by
  rw [npArange_length]
  have hpos : 0 < (stop - start) / step := div_pos_of_neg_of_neg (by linarith) hstep
  have := Int.ceil_pos.mpr hpos
  omega

lemma npArange_head? (start stop step : ℚ) (hlt : stop < start) (hstep : step < 0) :
    (npArange start stop step).head? = some start := by
  have hlen := npArange_nonempty start stop step hlt hstep
  rw [npArange_length] at hlen
  rw [npArange, List.head?_eq_getElem?, List.getElem?_map,
    List.getElem?_range hlen]
  simp

lemma npArange_mem_le (start stop step : ℚ) (hstep : step < 0) :
    ∀ x ∈ npArange start stop step, x ≤ start := by
  intro x hx
  rw [npArange] at hx
  obtain ⟨i, -, rfl⟩ := List.mem_map.mp hx
  have : (i : ℚ) * step ≤ 0 :=
    mul_nonpos_of_nonneg_of_nonpos (Nat.cast_nonneg i) hstep.le
  linarith

lemma fracsLegends_getLast? (dot_min dot_max : ℚ) (hlt : dot_min < dot_max) :
    (fracsLegends dot_min dot_max).getLast? = some dot_max := by
  rw [fracsLegends, List.getLast?_reverse]
  exact npArange_head? _ _ _ hlt (by simpa using legendStep_pos (dot_max - dot_min))

/-- C1: for every `0 ≤ dot_min < dot_max ≤ 1`, the legend tick sequence of
`dotplot2` (descending `np.arange` from `dot_max`, then reversed) contains
`dot_max`, ends with `dot_max`, and `dot_max` bounds every tick from above. -/
theorem legend_always_contains_dot_max (dot_min dot_max : ℚ)
    (h0 : 0 ≤ dot_min) (hlt : dot_min < dot_max) (h1 : dot_max ≤ 1) :
    dot_max ∈ fracsLegends dot_min dot_max ∧
    (fracsLegends dot_min dot_max).getLast? = some dot_max ∧
    ∀ x ∈ fracsLegends dot_min dot_max, x ≤ dot_max := by
  have hstep : -legendStep (dot_max - dot_min) < 0 := by
    simpa using legendStep_pos (dot_max - dot_min)
  refine ⟨?_, fracsLegends_getLast? dot_min dot_max hlt, ?_⟩
  · have hhead := npArange_head? dot_max dot_min _ hlt hstep
    rw [fracsLegends, List.mem_reverse]
    exact List.mem_of_mem_head? hhead
  · intro x hx
    rw [fracsLegends, List.mem_reverse] at hx
    exact npArange_mem_le _ _ _ hstep x hx

/-- Closed instance of `legend_always_contains_dot_max` at
`dot_min = 0.1`, `dot_max = 0.55`. -/
theorem legend_always_contains_dot_max_witness :
    (0.55 : ℚ) ∈ fracsLegends 0.1 0.55 :=
  (legend_always_contains_dot_max 0.1 0.55 (by norm_num) (by norm_num)
    (by norm_num)).1

/-- C6: the tick spacing is selected from `diff = dot_max - dot_min` by the
exact table of `dotplot2`, and the `dot_min = 0.1, dot_max = 0.55` scenario
yields `step = 0.1` with ascending ticks `[0.15, 0.25, 0.35, 0.45, 0.55]`. -/
theorem legend_step_table :
    (∀ d : ℚ, 0.2 < d → d ≤ 0.6 → legendStep d = 0.1) ∧
    (∀ d : ℚ, 0.06 < d → d ≤ 0.2 → legendStep d = 0.05) ∧
    (∀ d : ℚ, 0.03 < d → d ≤ 0.06 → legendStep d = 0.02) ∧
    (∀ d : ℚ, d ≤ 0.03 → legendStep d = 0.01) ∧
    (∀ d : ℚ, 0.6 < d → legendStep d = 0.2) ∧
    legendStep (0.55 - 0.1) = 0.1 ∧
    fracsLegends 0.1 0.55 = [0.15, 0.25, 0.35, 0.45, 0.55] := by
  refine ⟨?_, ?_, ?_, ?_, ?_, by norm_num [legendStep], ?_⟩
  · intro d h1 h2
    rw [legendStep, if_pos ⟨h1, h2⟩]
  · intro d h1 h2
    rw [legendStep, if_neg (by rintro ⟨h, -⟩; linarith), if_pos ⟨h1, h2⟩]
  · intro d h1 h2
    rw [legendStep, if_neg (by rintro ⟨h, -⟩; linarith),
      if_neg (by rintro ⟨h, -⟩; linarith), if_pos ⟨h1, h2⟩]
  · intro d h1
    rw [legendStep, if_neg (by rintro ⟨h, -⟩; linarith),
      if_neg (by rintro ⟨h, -⟩; linarith),
      if_neg (by rintro ⟨h, -⟩; linarith), if_pos h1]
  · intro d h1
    rw [legendStep, if_neg (by rintro ⟨-, h⟩; linarith),
      if_neg (by rintro ⟨-, h⟩; linarith),
      if_neg (by rintro ⟨-, h⟩; linarith), if_neg (by intro h; linarith)]
  · have hstep : legendStep ((0.55 : ℚ) - 0.1) = 0.1 := by norm_num [legendStep]
    have hceil : (⌈((0.1 : ℚ) - 0.55) / -(0.1 : ℚ)⌉ : ℤ) = 5 := by
      rw [Int.ceil_eq_iff] <;> norm_num
    have hr : List.range ((5 : ℤ)).toNat = [0, 1, 2, 3, 4] := rfl
    rw [fracsLegends, hstep, npArange, hceil, hr]
    norm_num

/-- Closed instance of `legend_step_table`: `diff = 0.45` selects `0.1`. -/
theorem legend_step_table_witness : legendStep 0.45 = 0.1 :=
  legend_step_table.1 0.45 (by norm_num) (by norm_num)

/-- C5: whenever `(dot_min, dot_max) ≠ (0, 1)` the fraction is clipped to
`[dot_min, dot_max]` and rescaled by `(clipped - dot_min) / (dot_max - dot_min)`;
the dot size is always `(rescaled * 10) ^ 2`, hence non-negative, and at most
`100` whenever the rescaled fraction lies in `[0, 1]`. -/
theorem size_encoding (dot_min dot_max f : ℚ) :
    ((dot_min, dot_max) ≠ ((0 : ℚ), (1 : ℚ)) →
      rescaleFrac dot_min dot_max f =
        (npClip f dot_min dot_max - dot_min) / (dot_max - dot_min)) ∧
    dotSize (rescaleFrac dot_min dot_max f) =
      (rescaleFrac dot_min dot_max f * 10) ^ 2 ∧
    0 ≤ dotSize (rescaleFrac dot_min dot_max f) ∧
    (0 ≤ rescaleFrac dot_min dot_max f → rescaleFrac dot_min dot_max f ≤ 1 →
      dotSize (rescaleFrac dot_min dot_max f) ≤ 100) := by
  refine ⟨?_, rfl, sq_nonneg _, ?_⟩
  · intro h
    rw [rescaleFrac, if_pos]
    by_contra hc
    push_neg at hc
    exact h (by rw [hc.1, hc.2])
  · intro hge hle
    rw [dotSize]
    nlinarith

/-- Closed instance of `size_encoding` at `dot_min = 0.2`, `dot_max = 0.8`,
`frac = 0.5`. -/
theorem size_encoding_witness :
    rescaleFrac 0.2 0.8 0.5 = (npClip 0.5 0.2 0.8 - 0.2) / (0.8 - 0.2) ∧
    dotSize (rescaleFrac 0.2 0.8 0.5) ≤ 100 :=
  ⟨(size_encoding 0.2 0.8 0.5).1 (by norm_num),
   (size_encoding 0.2 0.8 0.5).2.2.2
     (by norm_num [rescaleFrac, npClip])
     (by norm_num [rescaleFrac, npClip])⟩

/-- C10: supplying an axis handle forces `legend_loc` to `'none'`, so the
figure dimensions carry no `+0.25` legend allowance, no new figure is
created, and the `(fig_width, fig_height)` pair is returned. -/
theorem embedded_mode_forces_no_legend (legend_loc : String) (n_key n_group : ℕ)
    (swap_axis : Bool) :
    effectiveLegendLoc true legend_loc = "none" ∧
    figWidth n_key n_group swap_axis (effectiveLegendLoc true legend_loc) =
      0.5 + (if swap_axis then (n_key : ℚ) else (n_group : ℚ)) * 0.25 ∧
    figHeight n_key n_group swap_axis (effectiveLegendLoc true legend_loc) =
      0.5 + (if swap_axis then (n_group : ℚ) else (n_key : ℚ)) * 0.2 ∧
    createsNewFigure true (effectiveLegendLoc true legend_loc) = false ∧
    dotplot2Return true (figWidth n_key n_group swap_axis (effectiveLegendLoc true legend_loc))
        (figHeight n_key n_group swap_axis (effectiveLegendLoc true legend_loc)) =
      some (figWidth n_key n_group swap_axis (effectiveLegendLoc true legend_loc),
        figHeight n_key n_group swap_axis (effectiveLegendLoc true legend_loc)) := by
  refine ⟨rfl, ?_, ?_, rfl, rfl⟩ <;>
    simp [effectiveLegendLoc, figWidth, figHeight]

lemma ge_append_ne (s : String) : ">=" ++ s ≠ s := by
  intro h
  have hl := congrArg String.length h
  rw [String.length_append] at hl
  have h2 : (">=" : String).length = 2 := rfl
  omega

/-- C9: `dotplot2` accepts `dot_min = dot_max = c` for any `c ∈ [0, 1]` (the
two bounds are never compared), and also derives the equal pair `(0, 0)` when
every fraction is `0` and both bounds are unset; every equal pair takes the
rescale branch with `old_range = c - c = 0` as divisor (non-finite sizes in
floating point), and the legend's descending tick range is empty, so the
`dot_max < 1` label adjustment indexes an empty list and fails. -/
theorem equal_dot_bounds_accepted (c : ℚ) (h0 : 0 ≤ c) (h1 : c ≤ 1) :
    checkDotBounds (some c) (some c) 0 = Except.ok (c, c) ∧
    (∀ f : ℚ, rescaleFrac c c f = (npClip f c c - c) / (c - c)) ∧
    c - c = 0 ∧
    fracsLegends c c = [] ∧
    (c < 1 → setLastGE ((fracsLegends c c).map fmtPercent) = none) ∧
    checkDotBounds none none 0 = Except.ok (0, 0) := by
  have hrange : ¬(c < 0 ∨ 1 < c) := by push_neg; exact ⟨h0, h1⟩
  have hfl : fracsLegends c c = [] := by
    simp [fracsLegends, npArange]
  refine ⟨?_, ?_, sub_self c, hfl, ?_, ?_⟩
  · simp [checkDotBounds, checkDotMin, hrange]
  · intro f
    rw [rescaleFrac, if_pos]
    rcases eq_or_ne c 0 with rfl | hc
    · exact Or.inr (by norm_num)
    · exact Or.inl hc
  · intro _
    rw [hfl]
    rfl
  · norm_num [checkDotBounds, checkDotMin]

/-- Closed instance of `equal_dot_bounds_accepted` at `c = 0.5`. -/
theorem equal_dot_bounds_accepted_witness :
    checkDotBounds (some 0.5) (some 0.5) 0 = Except.ok ((0.5 : ℚ), (0.5 : ℚ)) ∧
    fracsLegends 0.5 0.5 = [] :=
  ⟨(equal_dot_bounds_accepted 0.5 (by norm_num) (by norm_num)).1,
   (equal_dot_bounds_accepted 0.5 (by norm_num) (by norm_num)).2.2.2.1⟩

/-- C7 (code bug): at `dot_min = 0`, `dot_max = 0.5 < 1`, the computed
`labels` list carries the `>=` marker on its top entry, but the tick labels
actually rendered are recomputed from `fracs_legends` without the marker
(the statements consuming `labels` are commented out), so the rendered top
label is a plain percentage. -/
theorem rendered_top_label_not_open_ended :
    (0.5 : ℚ) < 1 ∧
    legendLabels 0 0.5 =
      some (((fracsLegends 0 0.5).map fmtPercent).dropLast ++
        [">=" ++ fmtPercent 0.5]) ∧
    (renderedLegendLabels 0 0.5).getLast? = some (fmtPercent 0.5) ∧
    renderedLegendLabels 0 0.5 ≠ (legendLabels 0 0.5).getD [] := by
  have hstep : legendStep ((0.5 : ℚ) - 0) = 0.1 := by norm_num [legendStep]
  have hceil : (⌈((0 : ℚ) - 0.5) / -(0.1 : ℚ)⌉ : ℤ) = 5 := by
    rw [Int.ceil_eq_iff] <;> norm_num
  have hr : List.range ((5 : ℤ)).toNat = [0, 1, 2, 3, 4] := rfl
  have hfl : fracsLegends 0 0.5 = [0.1, 0.2, 0.3, 0.4, 0.5] := by
    rw [fracsLegends, hstep, npArange, hceil, hr]
    norm_num
  refine ⟨by norm_num, ?_, ?_, ?_⟩
  · rw [legendLabels, hfl, if_pos (by norm_num)]
    rfl
  · rw [renderedLegendLabels, hfl]
    rfl
  · intro h
    have hlast := congrArg List.getLast? h
    rw [renderedLegendLabels, hfl] at hlast
    rw [legendLabels, hfl, if_pos (by norm_num)] at hlast
    simp only [setLastGE] at hlast
    have : fmtPercent 0.5 = ">=" ++ fmtPercent 0.5 := by
      simpa using hlast
    exact ge_append_ne (fmtPercent 0.5) this.symm

section GridLemmas

variable {α : Type*} {β : Type*}

lemma npTile_getElem? (l : List α) {n q r : ℕ} (hq : q < n) (hr : r < l.length) :
    (npTile l n)[q * l.length + r]? = l[r]? := by
  induction n generalizing q with
  | zero => omega
  | succ n ih =>
    rw [npTile, List.getElem?_append]
    cases q with
    | zero =>
      rw [if_pos (by simpa using hr)]
      simp
    | succ q =>
      have hidx : (q + 1) * l.length + r = l.length + (q * l.length + r) := by ring
      rw [hidx, if_neg (by omega), Nat.add_sub_cancel_left]
      exact ih (by omega)

lemma npRepeat_getElem? (l : List α) {n q r : ℕ} (hq : q < l.length) (hr : r < n) :
    (npRepeat l n)[q * n + r]? = l[q]? := by
  induction l generalizing q with
  | nil => simp at hq
  | cons a l ih =>
    rw [npRepeat, List.map_cons, List.flatten_cons, List.getElem?_append]
    cases q with
    | zero =>
      rw [if_pos (by simpa using hr)]
      simp [hr]
    | succ q =>
      have hidx : (q + 1) * n + r = n + (q * n + r) := by ring
      rw [hidx, if_neg (by simp), List.length_replicate, Nat.add_sub_cancel_left]
      have := ih (q := q) (by simpa using hq)
      rw [npRepeat] at this
      simpa using this

lemma zip_getElem? (l : List α) (m : List β) (k : ℕ) :
    (l.zip m)[k]? = l[k]?.bind fun a => m[k]?.map fun b => (a, b) := by
  induction l generalizing m k with
  | nil => simp
  | cons a l ih =>
    cases m with
    | nil => simp
    | cons b m =>
      cases k with
      | zero => simp
      | succ k => simpa using ih m k

lemma npTile_range_getElem? {g n q r : ℕ} (hq : q < n) (hr : r < g) :
    (npTile (List.range g) n)[q * g + r]? = some r := by
  have h := npTile_getElem? (List.range g) (n := n) (q := q) (r := r) hq
    (by simpa using hr)
  simpa [List.getElem?_range hr] using h

lemma npRepeat_range_getElem? {k n q r : ℕ} (hq : q < k) (hr : r < n) :
    (npRepeat (List.range k) n)[q * n + r]? = some q := by
  have h := npRepeat_getElem? (List.range k) (n := n) (q := q) (r := r)
    (by simpa using hq) hr
  simpa [List.getElem?_range hq] using h

lemma npRepeat_range_reverse_getElem? {k n q r : ℕ} (hq : q < k) (hr : r < n) :
    (npRepeat (List.range k).reverse n)[q * n + r]? = some (k - 1 - q) := by
  have h := npRepeat_getElem? (List.range k).reverse (n := n) (q := q) (r := r)
    (by simpa using hq) hr
  rw [List.getElem?_reverse (by simpa using hq)] at h
  simpa [List.getElem?_range (show k - 1 - q < k by omega)] using h

/-- C3 counterexample: 2 groups, 1 feature, payloads `[10, 20]`. The dot of
(group 0, feature 0) carries payload `10` and sits at `(0, 0)` unswapped, but
under `swap_axis` no dot with payload `10` sits at the transposed position
`(0, 0)`: the swapped grid is vertically flipped. -/
theorem swap_axis_not_exact_transpose :
    (0, 0, 10) ∈ scatterNoSwap 2 1 [10, 20] ∧
    (0, 0, (10 : ℕ)) ∉ scatterSwap 2 1 [10, 20] ∧
    scatterSwap 2 1 [(10 : ℕ), 20] = [(0, 0, 20), (0, 1, 10)] := by
  decide

/-- C3 (amended): the cell of (group `i`, feature `j`) has flat index
`j * n_group + i`; unswapped it is drawn at `(x = i, y = j)`, and under
`swap_axis` the same payload is drawn at `(x = j, y = n_group - 1 - i)` — a
vertically flipped transpose — while the swapped y tick labels are reversed,
so the tick label on its row is still group `i`'s label. -/
theorem swap_axis_flipped_transpose (n_group n_key i j : ℕ)
    (attrs : List α) (group_label : List String)
    (hi : i < n_group) (hj : j < n_key) (hlen : attrs.length = n_key * n_group)
    (hglen : group_label.length = n_group) :
    (scatterNoSwap n_group n_key attrs)[j * n_group + i]? =
      attrs[j * n_group + i]?.map (fun a => (i, j, a)) ∧
    (scatterSwap n_group n_key attrs)[n_key * n_group - 1 - (j * n_group + i)]? =
      attrs[j * n_group + i]?.map (fun a => (j, n_group - 1 - i, a)) ∧
    (swapYTickLabels group_label)[n_group - 1 - i]? = group_label[i]? := by
  have hs : j * n_group + i < n_key * n_group := by
    have h1 : j * n_group + i < (j + 1) * n_group := by
      have : (j + 1) * n_group = j * n_group + n_group := by ring
      omega
    have h2 : (j + 1) * n_group ≤ n_key * n_group :=
      Nat.mul_le_mul_right _ (by omega)
    omega
  refine ⟨?_, ?_, ?_⟩
  · rw [scatterNoSwap, zip_getElem?, npTile_range_getElem? hj hi,
      zip_getElem?, npRepeat_range_getElem? hj hi]
    cases h : attrs[j * n_group + i]? <;> simp
  · -- decompose the reversed flat index
    have hkey : 1 ≤ n_key := by omega
    have hexp : n_key * n_group = (n_key - 1 - j) * n_group + j * n_group + n_group := by
      have h : n_key = (n_key - 1 - j) + j + 1 := by omega
      calc n_key * n_group = ((n_key - 1 - j) + j + 1) * n_group := by rw [← h]
        _ = (n_key - 1 - j) * n_group + j * n_group + n_group := by ring
    have hidx : n_key * n_group - 1 - (j * n_group + i) =
        (n_key - 1 - j) * n_group + (n_group - 1 - i) := by
      generalize hA : (n_key - 1 - j) * n_group = A at hexp ⊢
      generalize hB : j * n_group = B at hexp ⊢
      omega
    have hrev : attrs.reverse[(n_key - 1 - j) * n_group + (n_group - 1 - i)]? =
        attrs[j * n_group + i]? := by
      rw [List.getElem?_reverse (by rw [hlen, ← hidx]; omega)]
      congr 1
      generalize hA : (n_key - 1 - j) * n_group = A at hidx ⊢
      generalize hB : j * n_group = B at hidx hs ⊢
      omega
    rw [scatterSwap, hidx, zip_getElem?,
      npRepeat_range_reverse_getElem? (show n_key - 1 - j < n_key by omega)
        (show n_group - 1 - i < n_group by omega),
      zip_getElem?,
      npTile_range_getElem? (show n_key - 1 - j < n_key by omega)
        (show n_group - 1 - i < n_group by omega),
      hrev]
    have hj' : n_key - 1 - (n_key - 1 - j) = j := by omega
    cases h : attrs[j * n_group + i]? <;> simp [hj']
  · rw [swapYTickLabels, List.getElem?_reverse (by omega)]
    congr 1
    omega

/-- Closed instance of `swap_axis_flipped_transpose` with 2 groups,
1 feature, payloads `[10, 20]`, labels `["g1", "g2"]`, at cell `(0, 0)`. -/
theorem swap_axis_flipped_transpose_witness :
    (scatterNoSwap 2 1 [(10 : ℕ), 20])[0]? =
      ([(10 : ℕ), 20])[0]?.map (fun a => (0, 0, a)) ∧
    (scatterSwap 2 1 [(10 : ℕ), 20])[1 * 2 - 1 - 0]? =
      ([(10 : ℕ), 20])[0]?.map (fun a => (0, 2 - 1 - 0, a)) ∧
    (swapYTickLabels ["g1", "g2"])[2 - 1 - 0]? = (["g1", "g2"])[0]? := by
  have h := swap_axis_flipped_transpose 2 1 0 0 [(10 : ℕ), 20] ["g1", "g2"]
    (by norm_num) (by norm_num) (by norm_num) (by norm_num)
  simpa using h

end GridLemmas

lemma sum_indicator_eq_length_filter (p : ℚ × ℚ → Bool) (g : List (ℚ × ℚ)) :
    (g.map fun x => if p x then (1 : ℚ) else 0).sum = ((g.filter p).length : ℚ) := by
  induction g with
  | nil => simp
  | cons a g ih =>
    by_cases h : p a <;> simp [List.filter_cons, h, ih] <;> push_cast <;> ring

lemma filter_fst_length (g : List (ℚ × ℚ)) :
    ((g.map Prod.fst).filter fun x => decide (0 < x)).length =
      (g.filter fun p => decide (0 < p.1)).length := by
  rw [List.filter_map, List.length_map]
  rfl

/-- C4: in joint mode `count_expressed` counts the observations with both
features positive, the fraction is that count over the group size (so 4 of 10
gives 0.4), and the displayed mean — either variant — is a function of the
first feature's column alone. -/
theorem joint_mode_statistics (g : List (ℚ × ℚ)) (hne : g ≠ []) :
    jointExpCnt g =
      (g.filter fun p => decide (0 < p.1) && decide (0 < p.2)).length ∧
    jointFrac g = (jointExpCnt g : ℚ) / (g.length : ℚ) ∧
    (∀ (b : Bool) (g' : List (ℚ × ℚ)), g'.map Prod.fst = g.map Prod.fst →
      jointAvg b g' = jointAvg b g) ∧
    (g.length = 10 → jointExpCnt g = 4 → jointFrac g = 0.4) := by
  have hcnt : jointFrac g = (jointExpCnt g : ℚ) / (g.length : ℚ) := by
    rw [jointFrac, jointExpCnt, sum_indicator_eq_length_filter]
  refine ⟨?_, hcnt, ?_, ?_⟩
  · rw [jointExpCnt]
    congr 1
    apply List.filter_congr
    intro p _
    rw [posCount2]
    split_ifs with h1 h2 h2 <;> simp [h1, h2]
  · intro b g' hfst
    have hlen : g'.length = g.length := by
      have := congrArg List.length hfst
      simpa using this
    have hsum : (g'.map Prod.fst).sum = (g.map Prod.fst).sum := by rw [hfst]
    have hflt : (g'.filter fun p => decide (0 < p.1)).length =
        (g.filter fun p => decide (0 < p.1)).length := by
      rw [← filter_fst_length, ← filter_fst_length, hfst]
    cases b <;> simp [jointAvg, meanAllFst, meanExprFst, hlen, hsum, hflt]
  · intro hlen hc
    rw [hcnt, hlen, hc]
    norm_num

/-- Closed instance of `joint_mode_statistics` on `jointWitnessGroup`. -/
theorem joint_mode_statistics_witness : jointFrac jointWitnessGroup = 0.4 := by
  have h := joint_mode_statistics jointWitnessGroup (by simp [jointWitnessGroup])
  refine h.2.2.2 (by simp [jointWitnessGroup]) ?_
  have hchar := h.1
  rw [hchar]
  norm_num [jointWitnessGroup, List.filter_cons]

set_option maxRecDepth 20000 in
/-- C2 (code bug): with group sizes 50, 3, 100 and `min_group_size = 10` the
rows of the size-3 group are dropped, but the categorical keeps all three
categories, so the group axis still lists `"g2"` and `n_group = 3` — not the
2 groups the claim demands. -/
theorem small_group_remains_on_group_axis :
    groupSizes scenarioGroups = [50, 3, 100] ∧
    statMatrixGroupLabels 10 scenarioGroups = ["g1", "g2", "g3"] ∧
    "g2" ∈ statMatrixGroupLabels 10 scenarioGroups ∧
    nGroupAfterFilter 10 scenarioGroups = 3 ∧
    (filterMinGroupSize 10 scenarioGroups).codes.all (fun g => g != 1) = true ∧
    (filterMinGroupSize 10 scenarioGroups).codes.length = 150 := by
  decide

lemma renameCategories_zip (l m : List String) (hnd : l.Nodup)
    (hlen : l.length = m.length) : renameCategories (l.zip m) l = m := by
  induction l generalizing m with
  | nil =>
    cases m with
    | nil => rfl
    | cons b m => simp at hlen
  | cons a l ih =>
    cases m with
    | nil => simp at hlen
    | cons b m =>
      rw [List.zip_cons_cons, renameCategories, List.map_cons]
      have hhead : ((((a, b) :: l.zip m).lookup a).getD a) = b := by
        simp [List.lookup]
      rw [hhead]
      have htail : ∀ c ∈ l, ((((a, b) :: l.zip m).lookup c).getD c) =
          (((l.zip m).lookup c).getD c) := by
        intro c hc
        have hca : (c == a) = false := by
          simp only [beq_eq_false_iff_ne]
          rintro rfl
          exact (List.nodup_cons.mp hnd).1 hc
        simp [List.lookup, hca]
      rw [List.map_congr_left htail]
      have := ih m (List.nodup_cons.mp hnd).2 (by simpa using hlen)
      rw [renameCategories] at this
      rw [this]

lemma decoratedLabels_length (counts : List ℕ) (cats : List String) :
    (decoratedLabels counts cats).length = cats.length := by
  simp [decoratedLabels]

/-- C8: whenever `plot_embedding` decorates the category labels for display
(`annot` set), the original labels are restored on both exit paths of the
try/finally — also when the scatter rendering raises. -/
theorem display_rename_always_restored (counts : List ℕ) (cats : List String)
    (renderOk annot : Bool) (hnd : cats.Nodup)
    (hdnd : (decoratedLabels counts cats).Nodup) :
    (plotEmbeddingRun annot counts cats renderOk).2 = cats ∧
    ((plotEmbeddingRun annot counts cats renderOk).1 = Except.ok () ↔
      renderOk = true) := by
  constructor
  · cases annot with
    | false => simp [plotEmbeddingRun]
    | true =>
      have hfwd : renameCategories (renameDict counts cats) cats =
          decoratedLabels counts cats := by
        rw [renameDict]
        exact renameCategories_zip cats (decoratedLabels counts cats) hnd
          (decoratedLabels_length counts cats).symm
      have hback : renameCategories (restoreDict counts cats)
          (decoratedLabels counts cats) = cats := by
        rw [restoreDict]
        exact renameCategories_zip (decoratedLabels counts cats) cats hdnd
          (decoratedLabels_length counts cats)
      simp [plotEmbeddingRun, hfwd, hback]
  · cases renderOk <;> simp [plotEmbeddingRun]

/-- Closed instance of `display_rename_always_restored`: two categories,
rendering raises, labels still restored. -/
theorem display_rename_always_restored_witness :
    (plotEmbeddingRun true [2, 3] ["a", "b"] false).2 = ["a", "b"] ∧
    (plotEmbeddingRun true [2, 3] ["a", "b"] false).1 ≠ Except.ok () := by
  have h := display_rename_always_restored [2, 3] ["a", "b"] false true
    (by decide) (by decide)
  exact ⟨h.1, fun hc => by simpa using h.2.mp hc⟩

end ScanpyScripts
